import Mathlib

/-!
Verification development for the quinipolo repository: the result-to-question
matching subsystem (goal buckets, outcome resolution, source aggregation,
greedy one-to-one assignment, auto-fill application) and the translation-key
validation script.  Definitions are shallow embeddings of the repository's
code; components whose implementation lives outside the repository snapshot
(the Outcome Resolver, Matching Engine, Source Aggregator and Date Window
Filter of the design document) are modelled from the specification text and
carry a doc comment saying so.
-/

/-- Source `utils/autoFillUtils.ts`, `scoreToGoalRange`: converts a score to a goal
range for waterpolo; returns "-" for scores below 11, "11/12" for 11–12
inclusive, "+" above 12.  Scores are JS numbers used as integers. -/
def scoreToGoalRange (score : Int) : String :=
  if score < 11 then "-"
  else if score ≥ 11 ∧ score ≤ 12 then "11/12"
  else "+"

/-- Modelled from the spec: the parametric goal-bucket derivation of §4.2 and
§6 — bucket thresholds (and the three bucket labels) supplied by the caller
per `gameType`: a score below the low threshold maps to the low label, a score
within the inclusive mid-range `[low, high]` to the mid label, and a score
above the upper threshold to the high label.  This definition follows the
specification's words and exists to be compared with the repository's
`scoreToGoalRange`. -/
def scoreToGoalRangeCfg (low high : Int) (lowLabel midLabel highLabel : String)
    (score : Int) : String :=
  if score < low then lowLabel
  else if low ≤ score ∧ score ≤ high then midLabel
  else highLabel

/-- Maturity of a scraped result (spec §3). -/
inductive Status where
  | scheduled
  | finished
  | aet
  | shootout
deriving DecidableEq, Repr

/-- Discrete outcome of a match (spec §3, MatchCandidate.derivedOutcome). -/
inductive Outcome where
  | homeWin
  | awayWin
  | draw
deriving DecidableEq, Repr

/-- A single scraped match observation (spec §3).  Timestamps are integers. -/
structure RawResult where
  sourceId : String
  homeTeamRaw : String
  awayTeamRaw : String
  homeScore : Int
  awayScore : Int
  homeRegulationScore : Option Int
  awayRegulationScore : Option Int
  status : Status
  kickoffTime : Int
  isChampionsLeague : Bool
deriving DecidableEq, Repr

/-- Modelled from the spec: the Outcome Resolver's `resolve` (§4.2), whose
implementation is not part of this repository snapshot.  If
`status == shootout` and both regulation scores are present, the outcome is
`draw` and the effective scores are the regulation scores; otherwise the
outcome is decided by comparing the raw scores, which are also the effective
scores. -/
def resolve (r : RawResult) : Outcome × Int × Int :=
  match r.status, r.homeRegulationScore, r.awayRegulationScore with
  | Status.shootout, some hr, some ar => (Outcome.draw, hr, ar)
  | _, _, _ =>
    (if r.homeScore > r.awayScore then Outcome.homeWin
     else if r.homeScore < r.awayScore then Outcome.awayWin
     else Outcome.draw,
     r.homeScore, r.awayScore)

/-- The concrete shootout example of spec §8. -/
def shootoutExample : RawResult :=
  { sourceId := "flashscore"
    homeTeamRaw := "CN Barcelona"
    awayTeamRaw := "CN Sabadell"
    homeScore := 1
    awayScore := 1
    homeRegulationScore := some 1
    awayRegulationScore := some 1
    status := Status.shootout
    kickoffTime := 0
    isChampionsLeague := false }

/-- One result row of the auto-fill modal (`services/scraper/types`
`MatchResult` as used by `applyAutoFillResults`): the outcome is a string
("Tie", "Tie (PEN)" or a team name) computed upstream. -/
structure MatchResult where
  matchNumber : Int
  outcome : String
  homeScore : Int
  awayScore : Int
  homeRegulationScore : Option Int
  awayRegulationScore : Option Int
deriving DecidableEq, Repr

/-- One answer slot of the prediction form (`AnswersType`). -/
structure AnswersType where
  matchNumber : Int
  chosenWinner : String
  goalsHomeTeam : String
  goalsAwayTeam : String
  isGame15 : Bool
deriving DecidableEq, Repr

/-- One fixture of a quinipolo form (`QuinipoloType.quinipolo` element). -/
structure QuinipoloMatch where
  homeTeam : String
  awayTeam : String
deriving DecidableEq, Repr

/-- The prediction form (`QuinipoloType`), holding its ordered fixtures. -/
structure QuinipoloType where
  quinipolo : List QuinipoloMatch
deriving DecidableEq, Repr

/-- The body of the `matches.forEach` loop of `applyAutoFillResults`
(`utils/autoFillUtils.ts`): applies a single result to the answers array.
An index write past the end of the list is a no-op; the surrounding app
always passes a 15-slot answers array. -/
def applyOneResult (quinipolo : QuinipoloType) (updated : List AnswersType)
    (result : MatchResult) : List AnswersType :=
  let matchIndex : Int := result.matchNumber - 1
  if matchIndex < 0 ∨ 15 ≤ matchIndex then updated
  else
    let idx : Nat := matchIndex.toNat
    let chosenWinner : String :=
      if result.outcome = "Tie" ∨ result.outcome = "Tie (PEN)" then "empat"
      else
        match quinipolo.quinipolo[idx]? with
        | some quinipoloMatch =>
          if result.outcome = quinipoloMatch.homeTeam then quinipoloMatch.homeTeam
          else if result.outcome = quinipoloMatch.awayTeam then quinipoloMatch.awayTeam
          else ""
        | none => ""
    let updated1 : List AnswersType :=
      match updated[idx]? with
      | some old =>
        updated.set idx
          { old with
            matchNumber := result.matchNumber
            chosenWinner := chosenWinner
            isGame15 := decide (idx = 14) }
      | none => updated
    if idx = 14 then
      let effective : Int × Int :=
        if result.outcome = "Tie (PEN)" then
          match result.homeRegulationScore, result.awayRegulationScore with
          | some hr, some ar => (hr, ar)
          | _, _ => (result.homeScore, result.awayScore)
        else (result.homeScore, result.awayScore)
      match updated1[14]? with
      | some old14 =>
        updated1.set 14
          { old14 with
            goalsHomeTeam := scoreToGoalRange effective.1
            goalsAwayTeam := scoreToGoalRange effective.2 }
      | none => updated1
    else updated1

/-- Function `applyAutoFillResults` (`utils/autoFillUtils.ts`): folds every selected
result (the `matches` argument of the source) into a copy of the current
answers. -/
def applyAutoFillResults (selectedMatches : List MatchResult)
    (currentAnswers : List AnswersType) (quinipolo : QuinipoloType) :
    List AnswersType :=
  selectedMatches.foldl (applyOneResult quinipolo) currentAnswers

/-- A result targets answer slot `i` (0-based) when its matchNumber is in
range 1..15 and points at that slot. -/
def targetsSlot (r : MatchResult) (i : Nat) : Prop :=
  1 ≤ r.matchNumber ∧ r.matchNumber ≤ 15 ∧ (r.matchNumber - 1).toNat = i

/-- A concrete answers list used in witnesses: one slot with a previously
selected winner. -/
def sampleAnswers : List AnswersType :=
  [{ matchNumber := 1
     chosenWinner := "CN Terrassa"
     goalsHomeTeam := ""
     goalsAwayTeam := ""
     isGame15 := false }]

/-- A concrete form used in witnesses. -/
def sampleQuinipolo : QuinipoloType :=
  { quinipolo := [{ homeTeam := "CN Terrassa", awayTeam := "CN Mataro" }] }

/-- One slot of the prediction form (spec §3 Question). -/
structure Question where
  matchNumber : Nat
  homeTeam : String
  awayTeam : String
  gameType : String
deriving DecidableEq, Repr

/-- A candidate pairing of one question with one result (spec §3
MatchCandidate), carrying the 0-based positions of the question and the
result in their input lists. -/
structure MPair where
  qIdx : Nat
  rIdx : Nat
  question : Question
  result : RawResult
  confidence : Nat
deriving DecidableEq, Repr

/-- Modelled from the spec (§4.3 step 1–2): candidate pairs of one fixed
question against every result, each team-name similarity having to clear the
lower floor individually, and the pair confidence (average of the two) having
to clear the league-aware threshold. -/
def pairsForQuestion (sim : String → String → Nat) (floor : Nat)
    (threshold : Bool → Nat) (qi : Nat) (q : Question) :
    Nat → List RawResult → List MPair
  | _, [] => []
  | ri, r :: rs =>
    (let hS := sim r.homeTeamRaw q.homeTeam
     let aS := sim r.awayTeamRaw q.awayTeam
     let conf := (hS + aS) / 2
     if hS < floor ∨ aS < floor then []
     else if conf < threshold r.isChampionsLeague then []
     else [⟨qi, ri, q, r, conf⟩]) ++
    pairsForQuestion sim floor threshold qi q (ri + 1) rs

/-- Modelled from the spec (§4.3): all surviving (question, result) pairs. -/
def mkPairs (sim : String → String → Nat) (floor : Nat)
    (threshold : Bool → Nat) : Nat → List Question → List RawResult → List MPair
  | _, [], _ => []
  | qi, q :: qs, rs =>
    pairsForQuestion sim floor threshold qi q 0 rs ++
    mkPairs sim floor threshold (qi + 1) qs rs

/-- Modelled from the spec (§4.3 step 3): strict preference between surviving
pairs — higher confidence first, ties broken by earlier kickoff time. -/
def betterPair (a b : MPair) : Bool :=
  decide (b.confidence < a.confidence ∨
    (a.confidence = b.confidence ∧
      a.result.kickoffTime < b.result.kickoffTime))

/-- The most-preferred pair among a non-empty collection. -/
def pickBest (p : MPair) (ps : List MPair) : MPair :=
  ps.foldl (fun best c => if betterPair c best then c else best) p

/-- Modelled from the spec (§4.3 step 3): greedy assignment — repeatedly bind
the most-preferred unassigned pair and remove every other pair sharing its
question or its result.  The fuel argument bounds the number of rounds; the
caller passes the pair count, which suffices since each round removes at
least the chosen pair. -/
def greedyAssign : Nat → List MPair → List MPair
  | 0, _ => []
  | _, [] => []
  | fuel + 1, p :: ps =>
    let best := pickBest p ps
    best :: greedyAssign fuel
      ((p :: ps).filter fun c => decide (c.qIdx ≠ best.qIdx ∧ c.rIdx ≠ best.rIdx))

/-- Modelled from the spec (§4.3): the Matching Engine — build the surviving
pairs and assign them greedily one-to-one. -/
def matchEngine (sim : String → String → Nat) (floor : Nat)
    (threshold : Bool → Nat) (qs : List Question) (rs : List RawResult) :
    List MPair :=
  let pairs := mkPairs sim floor threshold 0 qs rs
  greedyAssign pairs.length pairs

/-- A fetcher as the Source Aggregator sees it: the results it would produce
and whether its invocation fails (network or parse error). -/
structure Fetcher where
  results : List RawResult
  fails : Bool
deriving DecidableEq, Repr

/-- Modelled from the spec (§4.4) and the `fetchLastWeekResults` fragment in
the Champions League implementation notes: invoking a fetcher either yields
its results or an error that the aggregator catches. -/
def invokeFetcher (f : Fetcher) : Except String (List RawResult) :=
  if f.fails then Except.error ("SourceUnavailable") else Except.ok f.results

/-- Modelled from the spec (§4.4): the Source Aggregator — every fetcher is
invoked, a failed fetcher contributes nothing, and the successful fetchers'
results are merged. -/
def aggregate (fetchers : List Fetcher) : List RawResult :=
  (fetchers.map invokeFetcher).foldr
    (fun outcome acc =>
      match outcome with
      | Except.ok rs => rs ++ acc
      | Except.error _ => acc) []

/-- Modelled from the spec (§4.4): after merging, results are filtered to
`kickoffTime >= now - window` and `status != scheduled`. -/
def dateWindowFilter (now window : Int) (results : List RawResult) :
    List RawResult :=
  results.filter fun r =>
    decide (now - window ≤ r.kickoffTime) && decide (r.status ≠ Status.scheduled)

/-- Modelled from the spec (§2 data flow): Source Aggregator → Date Window
Filter → Matching Engine. -/
def fetchPipeline (fetchers : List Fetcher) (now window : Int)
    (sim : String → String → Nat) (floor : Nat) (threshold : Bool → Nat)
    (qs : List Question) : List MPair :=
  matchEngine sim floor threshold qs
    (dateWindowFilter now window (aggregate fetchers))

/-- A concrete question used in witnesses. -/
def q0 : Question :=
  { matchNumber := 1, homeTeam := "Barcelona", awayTeam := "Sabadell",
    gameType := "waterpolo" }

/-- A concrete finished result used in witnesses. -/
def res0 : RawResult :=
  { sourceId := "flashscore", homeTeamRaw := "Barcelona",
    awayTeamRaw := "Sabadell", homeScore := 10, awayScore := 8,
    homeRegulationScore := none, awayRegulationScore := none,
    status := Status.finished, kickoffTime := 100, isChampionsLeague := false }

/-- An exact-match similarity used in witnesses. -/
def constSim : String → String → Nat := fun a b => if a = b then 100 else 0

/-- A JSON value, as parsed from a translation file
(`scripts/validate-translations.js`). -/
inductive Json where
  | null
  | bool (b : Bool)
  | num (n : Int)
  | str (s : String)
  | arr (elems : List Json)
  | obj (entries : List (String × Json))

/-- Dot-notation key built by `extractKeys`:
`prefix ? prefix + "." + key : key`. -/
def fullKey (pfx key : String) : String :=
  if pfx = "" then key else pfx ++ "." ++ key

/-- A JSON value is a leaf for `extractKeys` when the JS test
`value && typeof value === 'object' && !Array.isArray(value)` is false —
that is, anything except a (non-null, non-array) object. -/
def isLeafValue : Json → Bool
  | Json.obj _ => false
  | _ => true

/-- Loop body of `extractKeys` over an object's entry list
(`scripts/validate-translations.js` lines 13–24): recurse into non-null
non-array object values, add every other value as a single dot-joined leaf
key. -/
def extractKeysList : String → List (String × Json) → Finset String
  | _, [] => ∅
  | pfx, (k, Json.obj es) :: rest =>
    extractKeysList (fullKey pfx k) es ∪ extractKeysList pfx rest
  | pfx, (k, _) :: rest => insert (fullKey pfx k) (extractKeysList pfx rest)
termination_by _ l => sizeOf l
decreasing_by all_goals first | (simp_wf; omega) | simp_wf

/-- Function `extractKeys` (`scripts/validate-translations.js`): the set of
dot-notation keys of a parsed translation object.  Non-object roots have no
own enumerable entries and yield no keys; the script only ever applies it to
parsed JSON objects. -/
def extractKeys (j : Json) (pfx : String) : Finset String :=
  match j with
  | Json.obj es => extractKeysList pfx es
  | _ => ∅

/-- Root prefix of `extractKeys`: the default parameter value of the script. -/
def rootPfx : String := ""

/-- One discovered translation file (`findTranslationFiles` output entry):
its locale name and its parsed JSON content. -/
structure TranslationFile where
  locale : String
  data : Json

/-- JS `Map.prototype.set` semantics on an association list: overwrite the entry with the
given key if present, otherwise append a new entry. -/
def mapSet (m : List (String × Finset String)) (k : String) (v : Finset String) :
    List (String × Finset String) :=
  if m.any (fun e => decide (e.1 = k)) then
    m.map (fun e => if e.1 = k then (k, v) else e)
  else m ++ [(k, v)]

/-- The `translations` map built by the validation function
(`scripts/validate-translations.js` lines 114–122): locale ↦ extracted key
set, in file order. -/
def translationsOf (files : List TranslationFile) :
    List (String × Finset String) :=
  files.foldl (fun m f => mapSet m f.locale (extractKeys f.data rootPfx)) []

/-- The `allKeys` set of the validation function: the union of every file's
extracted keys. -/
def allKeysOf (files : List TranslationFile) : Finset String :=
  files.foldl (fun acc f => acc ∪ extractKeys f.data rootPfx) ∅

/-- Function `validateTranslationSet` (`scripts/validate-translations.js` lines
110–184): reports success exactly when no locale is missing any key of
`allKeys` (the extra-keys pass only prints diagnostics and does not affect
the returned value). -/
def validateTranslationSet (files : List TranslationFile) : Bool :=
  (translationsOf files).all fun e => decide (allKeysOf files ⊆ e.2)

/-- C4: goal-bucket derivation maps every score to exactly one of the three
labels — below 11 to "-", within the inclusive range 11–12 to "11/12", above
12 to "+" — and in particular 11 ↦ "11/12", 10 ↦ "-", 13 ↦ "+", the three
labels being pairwise distinct. -/
theorem scoreToGoalRange_buckets (s : Int) :
    (s < 11 → scoreToGoalRange s = "-") ∧
    (11 ≤ s ∧ s ≤ 12 → scoreToGoalRange s = "11/12") ∧
    (12 < s → scoreToGoalRange s = "+") ∧
    scoreToGoalRange 11 = "11/12" ∧
    scoreToGoalRange 10 = "-" ∧
    scoreToGoalRange 13 = "+" ∧
    ("-" : String) ≠ "11/12" ∧ ("11/12" : String) ≠ "+" ∧ ("-" : String) ≠ "+" := by
  refine ⟨?_, ?_, ?_, by decide, by decide, by decide, by decide, by decide, by decide⟩
  · intro h
    simp [scoreToGoalRange, h]
  · rintro ⟨h1, h2⟩
    have : ¬ s < 11 := by omega
    simp [scoreToGoalRange, this, h1, h2]
  · intro h
    have h1 : ¬ s < 11 := by omega
    have h2 : ¬ (s ≥ 11 ∧ s ≤ 12) := by omega
    simp [scoreToGoalRange, h1, h2]

/-- Witness for `scoreToGoalRange_buckets` at the concrete score 11. -/
theorem scoreToGoalRange_buckets_witness : scoreToGoalRange 11 = "11/12" :=
  (scoreToGoalRange_buckets 11).2.1 (by decide)

/-- Counterexample to C3: the repository's `scoreToGoalRange` disagrees with
the specification's threshold-parametric derivation at thresholds other than
11–12 — at thresholds (5, 6) a score of 7 is in the high bucket, yet the code
puts 7 in the low bucket unconditionally, so the bucket boundaries cannot
differ per `gameType`: the code fixes one sport's range. -/
theorem scoreToGoalRange_fixed_range :
    scoreToGoalRange 7 = "-" ∧
    scoreToGoalRangeCfg 5 6 "-" "5/6" "+" 7 = "+" ∧
    ("-" : String) ≠ "+" := by
  refine ⟨by decide, ?_, by decide⟩
  simp [scoreToGoalRangeCfg]

/-- C3 amended: the goal-bucket thresholds are hard-coded in
`scoreToGoalRange` — it takes only the score and coincides with the
specification's parametric derivation exactly when the thresholds are fixed
to waterpolo's 11 and 12 with labels "-", "11/12", "+". -/
theorem scoreToGoalRange_eq_cfg_at_11_12 (s : Int) :
    scoreToGoalRange s = scoreToGoalRangeCfg 11 12 "-" "11/12" "+" s := by
  simp [scoreToGoalRange, scoreToGoalRangeCfg, ge_iff_le]

/-- C1: for every RawResult in shootout status with both regulation scores
present, `resolve` yields outcome `draw` with the regulation scores as the
effective scores; in particular the spec's example (raw 1–1, regulation 1–1,
shootout) resolves to `draw` with effective scores (1, 1). -/
theorem resolve_shootout_draw_regulation (r : RawResult) (hr ar : Int)
    (hs : r.status = Status.shootout)
    (hh : r.homeRegulationScore = some hr)
    (ha : r.awayRegulationScore = some ar) :
    resolve r = (Outcome.draw, hr, ar) ∧
    resolve shootoutExample = (Outcome.draw, 1, 1) := by
  constructor
  · simp [resolve, hs, hh, ha]
  · rfl

/-- Witness for `resolve_shootout_draw_regulation` at the spec's concrete
shootout example. -/
theorem resolve_shootout_draw_regulation_witness :
    resolve shootoutExample = (Outcome.draw, 1, 1) :=
  (resolve_shootout_draw_regulation shootoutExample 1 1 rfl rfl rfl).1

theorem length_applyOneResult (q : QuinipoloType) (ans : List AnswersType)
    (r : MatchResult) : (applyOneResult q ans r).length = ans.length := by
  simp only [applyOneResult]
  repeat' split
  all_goals simp [List.length_set]

theorem applyOneResult_frame (q : QuinipoloType) (ans : List AnswersType)
    (r : MatchResult) (i : Nat) (h : ¬ targetsSlot r i) :
    (applyOneResult q ans r)[i]? = ans[i]? := by
  by_cases hg : (r.matchNumber - 1 : Int) < 0 ∨ 15 ≤ (r.matchNumber - 1 : Int)
  · simp only [applyOneResult]
    rw [if_pos hg]
  · have hb : 1 ≤ r.matchNumber ∧ r.matchNumber ≤ 15 := by omega
    have hne : (r.matchNumber - 1).toNat ≠ i := fun he => h ⟨hb.1, hb.2, he⟩
    simp only [applyOneResult]
    rw [if_neg hg]
    repeat' split
    all_goals first
      | rfl
      | simp_all [List.getElem?_set_ne, hne]

theorem foldl_applyOneResult_frame (q : QuinipoloType) (i : Nat) :
    ∀ (ms : List MatchResult) (ans : List AnswersType),
      (∀ m ∈ ms, ¬ targetsSlot m i) →
      (ms.foldl (applyOneResult q) ans)[i]? = ans[i]? := by
  intro ms
  induction ms with
  | nil => intro ans _; rfl
  | cons m ms ih =>
    intro ans h
    rw [List.foldl_cons, ih _ (fun x hx => h x (List.mem_cons_of_mem m hx)),
      applyOneResult_frame q ans m i (h m (List.mem_cons_self m ms))]

theorem foldl_applyOneResult_length (q : QuinipoloType) :
    ∀ (ms : List MatchResult) (ans : List AnswersType),
      (ms.foldl (applyOneResult q) ans).length = ans.length := by
  intro ms
  induction ms with
  | nil => intro ans; rfl
  | cons m ms ih =>
    intro ans
    rw [List.foldl_cons, ih, length_applyOneResult]

/-- C7: applying auto-fill results leaves every answer slot that no selected
result targets exactly unchanged — the function never fabricates an entry for
a slot without an assigned result. -/
theorem applyAutoFillResults_frame (ms : List MatchResult)
    (ans : List AnswersType) (q : QuinipoloType) (i : Nat)
    (h : ∀ m ∈ ms, ¬ targetsSlot m i) :
    (applyAutoFillResults ms ans q)[i]? = ans[i]? :=
  foldl_applyOneResult_frame q i ms ans h

/-- Witness for `applyAutoFillResults_frame`: a result targeting slot 2 leaves
slot 0 unchanged. -/
theorem applyAutoFillResults_frame_witness :
    (applyAutoFillResults
        [{ matchNumber := 3, outcome := "Tie", homeScore := 4, awayScore := 4,
           homeRegulationScore := none, awayRegulationScore := none }]
        sampleAnswers sampleQuinipolo)[0]? = sampleAnswers[0]? :=
  applyAutoFillResults_frame _ sampleAnswers sampleQuinipolo 0
    (by intro m hm; simp at hm; subst hm; intro ⟨_, _, ht⟩; simp at ht)

theorem applyOneResult_clears (q : QuinipoloType) (ans : List AnswersType)
    (r : MatchResult)
    (hb1 : 1 ≤ r.matchNumber) (hb2 : r.matchNumber ≤ 15)
    (hlen : (r.matchNumber - 1).toNat < ans.length)
    (ho1 : r.outcome ≠ "Tie") (ho2 : r.outcome ≠ "Tie (PEN)")
    (hq : ∀ qm, q.quinipolo[(r.matchNumber - 1).toNat]? = some qm →
      r.outcome ≠ qm.homeTeam ∧ r.outcome ≠ qm.awayTeam) :
    ∃ a, (applyOneResult q ans r)[(r.matchNumber - 1).toNat]? = some a ∧
      a.chosenWinner = "" ∧ a.matchNumber = r.matchNumber := by
  have hg : ¬ ((r.matchNumber - 1 : Int) < 0 ∨ 15 ≤ (r.matchNumber - 1 : Int)) := by
    omega
  have hout : ¬ (r.outcome = "Tie" ∨ r.outcome = "Tie (PEN)") := fun hc =>
    hc.elim ho1 ho2
  obtain ⟨old, hold⟩ : ∃ old, ans[(r.matchNumber - 1).toNat]? = some old :=
    ⟨ans[(r.matchNumber - 1).toNat], List.getElem?_eq_getElem hlen⟩
  have hwin :
      (match q.quinipolo[(r.matchNumber - 1).toNat]? with
        | some quinipoloMatch =>
          if r.outcome = quinipoloMatch.homeTeam then quinipoloMatch.homeTeam
          else if r.outcome = quinipoloMatch.awayTeam then quinipoloMatch.awayTeam
          else ""
        | none => "") = "" := by
    rcases hqm : q.quinipolo[(r.matchNumber - 1).toNat]? with _ | qm
    · rfl
    · obtain ⟨hnh, hna⟩ := hq qm hqm
      simp [hnh, hna]
  simp only [applyOneResult]
  rw [if_neg hg, if_neg hout]
  rw [hwin, hold]
  by_cases h14 : (r.matchNumber - 1).toNat = 14
  · simp only [h14] at hlen ⊢
    rw [if_pos trivial]
    simp only [List.getElem?_set_eq_of_lt _ hlen]
    refine ⟨_, List.getElem?_set_eq_of_lt _ ?_, rfl, rfl⟩
    rw [List.length_set]
    exact hlen
  · rw [if_neg h14]
    exact ⟨_, List.getElem?_set_eq_of_lt _ hlen, rfl, rfl⟩

/-- C10: for every result whose matchNumber is within 1..15 but whose outcome
string is neither "Tie" nor "Tie (PEN)" nor the corresponding question's
homeTeam nor awayTeam, `applyAutoFillResults` sets that slot's chosenWinner to
the empty string, overwriting any previously selected winner (for any prior
answers list), provided no later selected result targets the same slot. -/
theorem applyAutoFillResults_clears_unknown_outcome
    (pre post : List MatchResult) (r : MatchResult)
    (ans : List AnswersType) (q : QuinipoloType)
    (hb1 : 1 ≤ r.matchNumber) (hb2 : r.matchNumber ≤ 15)
    (hlen : (r.matchNumber - 1).toNat < ans.length)
    (ho1 : r.outcome ≠ "Tie") (ho2 : r.outcome ≠ "Tie (PEN)")
    (hq : ∀ qm, q.quinipolo[(r.matchNumber - 1).toNat]? = some qm →
      r.outcome ≠ qm.homeTeam ∧ r.outcome ≠ qm.awayTeam)
    (hpost : ∀ m ∈ post, ¬ targetsSlot m (r.matchNumber - 1).toNat) :
    ∃ a, (applyAutoFillResults (pre ++ r :: post) ans q)[(r.matchNumber - 1).toNat]? =
        some a ∧ a.chosenWinner = "" ∧ a.matchNumber = r.matchNumber := by
  unfold applyAutoFillResults
  rw [List.foldl_append, List.foldl_cons]
  have hlen1 : (r.matchNumber - 1).toNat < (pre.foldl (applyOneResult q) ans).length := by
    rw [foldl_applyOneResult_length]; exact hlen
  obtain ⟨a, ha1, ha2, ha3⟩ :=
    applyOneResult_clears q (pre.foldl (applyOneResult q) ans) r hb1 hb2 hlen1 ho1 ho2 hq
  refine ⟨a, ?_, ha2, ha3⟩
  rw [foldl_applyOneResult_frame q _ post _ hpost, ha1]

/-- Witness for `applyAutoFillResults_clears_unknown_outcome`: a result with
an unrecognized outcome string clears the previously selected winner of
slot 0. -/
theorem applyAutoFillResults_clears_unknown_outcome_witness :
    ∃ a, (applyAutoFillResults
        [{ matchNumber := 1, outcome := "CN Unknown", homeScore := 9,
           awayScore := 8, homeRegulationScore := none,
           awayRegulationScore := none }]
        sampleAnswers sampleQuinipolo)[(((1 : Int) - 1)).toNat]? = some a ∧
      a.chosenWinner = "" ∧ a.matchNumber = 1 :=
  applyAutoFillResults_clears_unknown_outcome [] []
    { matchNumber := 1, outcome := "CN Unknown", homeScore := 9,
      awayScore := 8, homeRegulationScore := none, awayRegulationScore := none }
    sampleAnswers sampleQuinipolo
    (by decide) (by decide) (by simp [sampleAnswers]) (by decide) (by decide)
    (by intro qm hqm; simp [sampleQuinipolo] at hqm; subst hqm; exact ⟨by decide, by decide⟩)
    (by intro m hm; simp at hm)

theorem pickBest_mem : ∀ (ps : List MPair) (p : MPair), pickBest p ps ∈ p :: ps := by
  intro ps
  induction ps with
  | nil =>
    intro p
    simp [pickBest]
  | cons c ps ih =>
    intro p
    have h := ih (if betterPair c p then c else p)
    simp only [pickBest, List.foldl_cons] at h ⊢
    rcases List.mem_cons.mp h with h1 | h1
    · rw [h1]
      by_cases hb : betterPair c p
      · simp [hb]
      · simp [hb]
    · exact List.mem_cons_of_mem _ (List.mem_cons_of_mem _ h1)

theorem greedyAssign_subset :
    ∀ (fuel : Nat) (ps : List MPair), ∀ x ∈ greedyAssign fuel ps, x ∈ ps := by
  intro fuel
  induction fuel with
  | zero =>
    intro ps x hx
    simp [greedyAssign] at hx
  | succ fuel ih =>
    intro ps x hx
    cases ps with
    | nil => simp [greedyAssign] at hx
    | cons p ps =>
      simp only [greedyAssign] at hx
      rcases List.mem_cons.mp hx with h1 | h1
      · rw [h1]
        exact pickBest_mem ps p
      · exact List.mem_of_mem_filter (ih _ x h1)

theorem greedyAssign_pairwise :
    ∀ (fuel : Nat) (ps : List MPair),
      List.Pairwise (fun a b => a.qIdx ≠ b.qIdx ∧ a.rIdx ≠ b.rIdx)
        (greedyAssign fuel ps) := by
  intro fuel
  induction fuel with
  | zero =>
    intro ps
    simp [greedyAssign]
  | succ fuel ih =>
    intro ps
    cases ps with
    | nil => simp [greedyAssign]
    | cons p ps =>
      simp only [greedyAssign]
      refine List.Pairwise.cons ?_ (ih _)
      intro x hx
      have hx' := greedyAssign_subset fuel _ x hx
      have hpred := (List.mem_filter.mp hx').2
      simp only [decide_eq_true_eq] at hpred
      exact ⟨fun he => hpred.1 he.symm, fun he => hpred.2 he.symm⟩

theorem pairsForQuestion_mem (sim : String → String → Nat) (floor : Nat)
    (threshold : Bool → Nat) (qi : Nat) (q : Question) :
    ∀ (rs : List RawResult) (ri : Nat) (p : MPair),
      p ∈ pairsForQuestion sim floor threshold qi q ri rs →
      p.qIdx = qi ∧ p.question = q ∧
        ∃ j, p.rIdx = ri + j ∧ rs[j]? = some p.result := by
  intro rs
  induction rs with
  | nil =>
    intro ri p hp
    simp [pairsForQuestion] at hp
  | cons r rs ih =>
    intro ri p hp
    simp only [pairsForQuestion] at hp
    rcases List.mem_append.mp hp with h1 | h1
    · have hp' : p = ⟨qi, ri, q, r, (sim r.homeTeamRaw q.homeTeam + sim r.awayTeamRaw q.awayTeam) / 2⟩ := by
        split at h1
        · simp at h1
        · split at h1
          · simp at h1
          · simpa using h1
      subst hp'
      exact ⟨rfl, rfl, 0, by simp, by simp⟩
    · obtain ⟨hq, hqu, j, hj, hjr⟩ := ih (ri + 1) p h1
      exact ⟨hq, hqu, j + 1, by omega, by simpa using hjr⟩

theorem mkPairs_mem (sim : String → String → Nat) (floor : Nat)
    (threshold : Bool → Nat) :
    ∀ (qs : List Question) (qi : Nat) (rs : List RawResult) (p : MPair),
      p ∈ mkPairs sim floor threshold qi qs rs →
      (∃ j, p.qIdx = qi + j ∧ qs[j]? = some p.question) ∧
        rs[p.rIdx]? = some p.result := by
  intro qs
  induction qs with
  | nil =>
    intro qi rs p hp
    simp [mkPairs] at hp
  | cons q qs ih =>
    intro qi rs p hp
    simp only [mkPairs] at hp
    rcases List.mem_append.mp hp with h1 | h1
    · obtain ⟨hq, hqu, j, hj, hjr⟩ := pairsForQuestion_mem sim floor threshold qi q rs 0 p h1
      refine ⟨⟨0, by omega, by simpa using hqu.symm⟩, ?_⟩
      rw [hj]
      simpa using hjr
    · obtain ⟨⟨j, hj, hjq⟩, hr⟩ := ih (qi + 1) rs p h1
      exact ⟨⟨j + 1, by omega, by simpa using hjq⟩, hr⟩

/-- C2: the Matching Engine's output is one-to-one — no two candidates share
a question position or a result position (each question receives at most one
result and each result is used for at most one question), and every candidate
really references the question and result at its recorded positions in the
input lists; this holds for all inputs. -/
theorem matchEngine_one_to_one (sim : String → String → Nat) (floor : Nat)
    (threshold : Bool → Nat) (qs : List Question) (rs : List RawResult) :
    List.Pairwise (fun a b => a.qIdx ≠ b.qIdx ∧ a.rIdx ≠ b.rIdx)
      (matchEngine sim floor threshold qs rs) ∧
    ∀ c ∈ matchEngine sim floor threshold qs rs,
      qs[c.qIdx]? = some c.question ∧ rs[c.rIdx]? = some c.result := by
  constructor
  · exact greedyAssign_pairwise _ _
  · intro c hc
    have hc' := greedyAssign_subset _ _ c hc
    obtain ⟨⟨j, hj, hjq⟩, hr⟩ := mkPairs_mem sim floor threshold qs 0 rs c hc'
    refine ⟨?_, hr⟩
    have : c.qIdx = j := by omega
    rw [this]
    exact hjq

/-- C5: a result is in the aggregator's merged set exactly when some
non-failing fetcher produced it — a single fetcher failure removes only that
source's results and never the results of the other fetchers, and the
aggregator itself always returns (it never fails the whole run). -/
theorem aggregate_partial_failure (fetchers : List Fetcher) (r : RawResult) :
    r ∈ aggregate fetchers ↔
      ∃ f ∈ fetchers, f.fails = false ∧ r ∈ f.results := by
  induction fetchers with
  | nil => simp [aggregate]
  | cons f fs ih =>
    by_cases hf : f.fails
    · rw [show aggregate (f :: fs) = aggregate fs from by
        simp [aggregate, invokeFetcher, hf]]
      rw [ih]
      constructor
      · rintro ⟨g, hg, hgf, hgr⟩
        exact ⟨g, List.mem_cons_of_mem _ hg, hgf, hgr⟩
      · rintro ⟨g, hg, hgf, hgr⟩
        rcases List.mem_cons.mp hg with h | h
        · rw [h] at hgf
          rw [hgf] at hf
          exact absurd hf (by simp)
        · exact ⟨g, h, hgf, hgr⟩
    · rw [show aggregate (f :: fs) = f.results ++ aggregate fs from by
        simp [aggregate, invokeFetcher, hf]]
      rw [List.mem_append, ih]
      constructor
      · rintro (hr | ⟨g, hg, hgf, hgr⟩)
        · exact ⟨f, List.mem_cons_self f fs, by simpa using hf, hr⟩
        · exact ⟨g, List.mem_cons_of_mem _ hg, hgf, hgr⟩
      · rintro ⟨g, hg, hgf, hgr⟩
        rcases List.mem_cons.mp hg with h | h
        · exact Or.inl (h ▸ hgr)
        · exact Or.inr ⟨g, h, hgf, hgr⟩

/-- C6: for all inputs to the pipeline, a RawResult with status `scheduled`
never appears in any candidate of the output — scheduled results are removed
by the filter before the Matching Engine ever sees them. -/
theorem fetchPipeline_no_scheduled (fetchers : List Fetcher)
    (now window : Int) (sim : String → String → Nat) (floor : Nat)
    (threshold : Bool → Nat) (qs : List Question) (c : MPair)
    (hc : c ∈ fetchPipeline fetchers now window sim floor threshold qs) :
    c.result.status ≠ Status.scheduled := by
  have hc' := greedyAssign_subset _ _ c hc
  obtain ⟨_, hr⟩ := mkPairs_mem sim floor threshold qs 0 _ c hc'
  have hmem := List.getElem?_mem hr
  have := (List.mem_filter.mp hmem).2
  simp only [Bool.and_eq_true, decide_eq_true_eq] at this
  exact this.2

/-- Witness for `matchEngine_one_to_one`: on one question and one matching
result, the single emitted candidate references that question and result. -/
theorem matchEngine_one_to_one_witness :
    [q0][(⟨0, 0, q0, res0, 100⟩ : MPair).qIdx]? =
        some (⟨0, 0, q0, res0, 100⟩ : MPair).question ∧
      [res0][(⟨0, 0, q0, res0, 100⟩ : MPair).rIdx]? =
        some (⟨0, 0, q0, res0, 100⟩ : MPair).result :=
  (matchEngine_one_to_one constSim 40 (fun _ => 60) [q0] [res0]).2
    ⟨0, 0, q0, res0, 100⟩ (by decide)

/-- Witness for `fetchPipeline_no_scheduled`: the candidate emitted by a
concrete pipeline run carries a non-scheduled result. -/
theorem fetchPipeline_no_scheduled_witness :
    (⟨0, 0, q0, res0, 100⟩ : MPair).result.status ≠ Status.scheduled :=
  fetchPipeline_no_scheduled [{ results := [res0], fails := false }] 100 7
    constSim 40 (fun _ => 60) [q0] ⟨0, 0, q0, res0, 100⟩ (by decide)

/-- C9: `extractKeys` recurses only into non-null non-array object values and
adds every other value (array, null, primitive) as a single leaf key at its
dot-joined path; keys inside array elements are never produced (the keys are
the same whatever the array holds), and a key whose value is an empty object
contributes no key at all. -/
theorem extractKeys_leaf_and_recursion :
    (∀ (pfx k : String) (v : Json) (rest : List (String × Json)),
      isLeafValue v = true →
      extractKeys (Json.obj ((k, v) :: rest)) pfx =
        insert (fullKey pfx k) (extractKeys (Json.obj rest) pfx)) ∧
    (∀ (pfx k : String) (es rest : List (String × Json)),
      extractKeys (Json.obj ((k, Json.obj es) :: rest)) pfx =
        extractKeys (Json.obj es) (fullKey pfx k) ∪
          extractKeys (Json.obj rest) pfx) ∧
    (∀ (pfx k : String) (xs : List Json) (rest : List (String × Json)),
      extractKeys (Json.obj ((k, Json.arr xs) :: rest)) pfx =
        insert (fullKey pfx k) (extractKeys (Json.obj rest) pfx)) ∧
    (∀ (pfx k : String) (rest : List (String × Json)),
      extractKeys (Json.obj ((k, Json.obj []) :: rest)) pfx =
        extractKeys (Json.obj rest) pfx) := by
  refine ⟨?_, ?_, ?_, ?_⟩
  · intro pfx k v rest hv
    cases v <;> simp_all [extractKeys, extractKeysList, isLeafValue]
  · intro pfx k es rest
    simp [extractKeys, extractKeysList]
  · intro pfx k xs rest
    simp [extractKeys, extractKeysList]
  · intro pfx k rest
    simp [extractKeys, extractKeysList]

/-- Witness for `extractKeys_leaf_and_recursion`: a string value is added as
one dot-joined leaf key. -/
theorem extractKeys_leaf_and_recursion_witness :
    extractKeys (Json.obj [("title", Json.str ("Quinipolo"))]) "autoFillModal" =
      insert (fullKey ("autoFillModal") ("title")) (extractKeys (Json.obj []) "autoFillModal") :=
  extractKeys_leaf_and_recursion.1 ("autoFillModal") ("title")
    (Json.str ("Quinipolo")) [] (by decide)

theorem subset_foldl_union :
    ∀ (files : List TranslationFile) (acc : Finset String),
      acc ⊆ files.foldl (fun a f => a ∪ extractKeys f.data rootPfx) acc := by
  intro files
  induction files with
  | nil => intro acc; exact Finset.Subset.refl acc
  | cons f fs ih =>
    intro acc
    exact Finset.Subset.trans Finset.subset_union_left (ih _)

theorem keys_subset_allKeys :
    ∀ (files : List TranslationFile) (acc : Finset String) (f : TranslationFile),
      f ∈ files →
      extractKeys f.data rootPfx ⊆
        files.foldl (fun a g => a ∪ extractKeys g.data rootPfx) acc := by
  intro files
  induction files with
  | nil =>
    intro acc f hf
    simp at hf
  | cons g gs ih =>
    intro acc f hf
    rcases List.mem_cons.mp hf with h | h
    · rw [List.foldl_cons]
      exact h ▸ Finset.Subset.trans Finset.subset_union_right (subset_foldl_union gs _)
    · exact ih _ f h

theorem translationsOf_eq :
    ∀ (files : List TranslationFile) (acc : List (String × Finset String)),
      (files.map (fun f => f.locale)).Nodup →
      (∀ f ∈ files, ∀ e ∈ acc, e.1 ≠ f.locale) →
      files.foldl (fun m f => mapSet m f.locale (extractKeys f.data rootPfx)) acc =
        acc ++ files.map (fun f => (f.locale, extractKeys f.data rootPfx)) := by
  intro files
  induction files with
  | nil =>
    intro acc _ _
    simp
  | cons f fs ih =>
    intro acc hnd hdisj
    have hnotin : ¬ acc.any (fun e => decide (e.1 = f.locale)) = true := by
      simp only [List.any_eq_true, decide_eq_true_eq]
      rintro ⟨e, he, heq⟩
      exact hdisj f (List.mem_cons_self f fs) e he heq
    rw [List.foldl_cons]
    rw [show mapSet acc f.locale (extractKeys f.data rootPfx) =
        acc ++ [(f.locale, extractKeys f.data rootPfx)] from by
      simp only [mapSet]; rw [if_neg hnotin]]
    rw [ih (acc ++ [(f.locale, extractKeys f.data rootPfx)])
        (by simpa using (List.nodup_cons.mp (by simpa using hnd)).2) ?_]
    · simp
    · intro g hg e he
      rcases List.mem_append.mp he with h | h
      · exact hdisj g (List.mem_cons_of_mem f hg) e h
      · have he' : e = (f.locale, extractKeys f.data rootPfx) := by simpa using h
        rw [he']
        intro hco
        have hmem : g.locale ∈ fs.map (fun x => x.locale) :=
          List.mem_map.mpr ⟨g, hg, rfl⟩
        have hnotmem : f.locale ∉ fs.map (fun x => x.locale) :=
          (List.nodup_cons.mp (by simpa using hnd)).1
        have hco' : f.locale = g.locale := hco
        exact hnotmem (by rw [hco']; exact hmem)

/-- C8: for every non-empty list of translation files with pairwise distinct
locale names, `validateTranslationSet` returns true exactly when every
locale's extracted key set equals the union of all locales' key sets — all
locales have the same keys; in particular it always succeeds on a single
locale. -/
theorem validateTranslationSet_same_keys (files : List TranslationFile)
    (hne : files ≠ [])
    (hnd : (files.map (fun f => f.locale)).Nodup) :
    (validateTranslationSet files = true ↔
      ∀ f ∈ files, extractKeys f.data rootPfx = allKeysOf files) ∧
    ∀ g : TranslationFile, validateTranslationSet [g] = true := by
  constructor
  · rw [validateTranslationSet, translationsOf,
      translationsOf_eq files [] hnd (by simp), List.nil_append,
      List.all_eq_true]
    constructor
    · intro h f hf
      have h2 := h (f.locale, extractKeys f.data rootPfx) (List.mem_map.mpr ⟨f, hf, rfl⟩)
      simp only [decide_eq_true_eq] at h2
      exact Finset.Subset.antisymm (keys_subset_allKeys files ∅ f hf) h2
    · intro h e he
      obtain ⟨f, hf, hfe⟩ := List.mem_map.mp he
      rw [← hfe]
      simp only [decide_eq_true_eq]
      rw [h f hf]
  · intro g
    simp [validateTranslationSet, translationsOf, allKeysOf, mapSet,
      Finset.Subset.refl]

/-- Witness for `validateTranslationSet_same_keys`: two locales with the same
single key validate successfully. -/
theorem validateTranslationSet_same_keys_witness :
    validateTranslationSet
      [{ locale := "en", data := Json.obj [("a", Json.str ("x"))] },
       { locale := "es", data := Json.obj [("a", Json.str ("y"))] }] = true :=
  ((validateTranslationSet_same_keys
      [{ locale := "en", data := Json.obj [("a", Json.str ("x"))] },
       { locale := "es", data := Json.obj [("a", Json.str ("y"))] }]
      (by simp) (by simp)).1).mpr (by
    intro f hf
    rcases List.mem_cons.mp hf with h | h
    · rw [h]
      simp [extractKeys, extractKeysList, allKeysOf, fullKey]
    · rw [show f = { locale := "es", data := Json.obj [("a", Json.str ("y"))] } from by
        simpa using h]
      simp [extractKeys, extractKeysList, allKeysOf, fullKey])
